import Mathlib

/-!
Verification development for the biz-playbook-rag hybrid retrieval core.

The repository is a JavaScript/TypeScript RAG system.  This file gives a
shallow embedding of its algorithmic core, translated from the source:

* src/lib/chunker.js            — token-window chunker (chunkText)
* src/lib/stores-langchain.js   — the enhanced store (lines 154-498):
    chunkTextEnhanced, calculateTextRelevance, saveVectorStore,
    loadVectorStore().similaritySearchWithScore, checkDocumentStatus
* src/unnamed/part_002          — the enhanced ingestion script (filesToProcess)
* src/pages/api/ask.ts          — the ask handler branch logic

Modelling conventions, stated once:

* JavaScript floating-point numbers are modelled exactly: the search
  pipeline arithmetic (min/max normalisation, 0.7/0.3 blend, 1e-9 epsilon)
  is carried out over the rationals, and the lexical-relevance formula
  (which uses Math.log) over the reals.
* The BPE tokenizer (js-tiktoken, external library) and the embedding
  model (Xenova transformers, external) are not repository code; they are
  abstracted as explicit function parameters (tok : String -> Nat,
  embedFn : String -> V).  The md5 checksum (node crypto, external) is
  modelled as an injective fingerprint: the content string itself.
* JavaScript strings are sequences of UTF-16 code units; the inputs used
  in concrete evaluations below are ASCII, where Lean String agrees.
-/

/-! ### JavaScript string helpers -/

/-- Split a character list at every separator character, keeping empty
pieces, as both `String.split` and the JS `String.prototype.split` on a
single-character-class regex do. -/
def splitChars (p : Char → Bool) : List Char → List (List Char)
  | [] => [[]]
  | c :: rest =>
    if p c then [] :: splitChars p rest
    else
      match splitChars p rest with
      | [] => [[c]]
      | piece :: more => (c :: piece) :: more

/-- Model of JavaScript `s.trim()`: strip leading and trailing whitespace. -/
def jsTrim (s : String) : String :=
  String.mk
    (((s.toList.dropWhile Char.isWhitespace).reverse.dropWhile
      Char.isWhitespace).reverse)

/-- Prefix test on character lists, used to model substring containment. -/
def listIsPrefix : List Char → List Char → Bool
  | [], _ => true
  | _ :: _, [] => false
  | a :: as, b :: bs => a == b && listIsPrefix as bs

/-- Containment of `needle` in `hay` as a contiguous substring. -/
def containsSub (needle : List Char) : List Char → Bool
  | [] => listIsPrefix needle []
  | c :: t => listIsPrefix needle (c :: t) || containsSub needle t

/-- Model of JavaScript `hay.includes(needle)` for strings. -/
def strIncludes (hay needle : String) : Bool :=
  containsSub needle.toList hay.toList

/--
Model of JavaScript `s.split(/\s+/)`: the string is split on maximal runs
of whitespace; a leading run contributes an initial empty token, a trailing
run a trailing empty token, and the empty string splits to one empty token.
-/
def jsSplitWs (s : String) : List String :=
  match s.toList with
  | [] => [""]
  | c :: _ =>
    let core :=
      ((splitChars Char.isWhitespace s.toList).map String.mk).filter
        fun t => ¬ t = ""
    let pre : List String := if c.isWhitespace then [""] else []
    let post : List String :=
      match s.toList.getLast? with
      | some d => if d.isWhitespace then [""] else []
      | none => []
    pre ++ core ++ post

/--
Model of JavaScript `s.slice(-n)` on strings: the last `n` characters,
the whole string when `n = 0` (JS `-0 === 0` makes `slice(-0)` a full copy)
or when `n` exceeds the length.
-/
def jsSliceNeg (s : String) (n : Nat) : String :=
  if n = 0 then s else String.mk (s.toList.drop (s.toList.length - n))

/-! ### Lexical relevance (stores-langchain.js lines 242-260)

`calculateTextRelevance` walks the lowercased whitespace-split query words,
skips words shorter than 3 characters, counts text words containing the
query word as a substring, and when the count is positive accumulates
`(wordCount / textLength) * Math.log(1 + textLength / wordCount)`.
The accumulator fold below is the for-loop of the source. -/

noncomputable def textRelGo (textWords : List String) : List String → ℝ → ℝ
  | [], score => score
  | w :: ws, score =>
    if w.length < 3 then textRelGo textWords ws score
    else
      let wordCount := (textWords.filter fun t => strIncludes t w).length
      let textLength := textWords.length
      if 0 < wordCount then
        textRelGo textWords ws
          (score + ((wordCount : ℝ) / (textLength : ℝ)) *
            Real.log (1 + (textLength : ℝ) / (wordCount : ℝ)))
      else textRelGo textWords ws score

/-- Translation of `calculateTextRelevance(query, text)`. -/
noncomputable def calculateTextRelevance (query text : String) : ℝ :=
  textRelGo (jsSplitWs text.toLower) (jsSplitWs query.toLower) 0

/-- The per-token term of the formula as the specification states it. -/
noncomputable def specTermScore (textWords : List String) (w : String) : ℝ :=
  let mc := (textWords.filter fun t => strIncludes t w).length
  let L := textWords.length
  if mc = 0 then 0
  else ((mc : ℝ) / (L : ℝ)) * Real.log (1 + (L : ℝ) / (mc : ℝ))

/-- The lexical score as the specification states it: a sum over the
lowercased whitespace-split query tokens of length at least 3. -/
noncomputable def specTextScore (query text : String) : ℝ :=
  (((jsSplitWs query.toLower).filter fun w => 3 ≤ w.length).map
    (specTermScore (jsSplitWs text.toLower))).sum

theorem textRelGo_eq_sum (textWords : List String) :
    ∀ (ws : List String) (acc : ℝ),
      textRelGo textWords ws acc =
        acc + ((ws.filter fun w => 3 ≤ w.length).map (specTermScore textWords)).sum := by
  intro ws
  induction ws with
  | nil => intro acc; simp [textRelGo]
  | cons w ws ih =>
    intro acc
    by_cases hlen : w.length < 3
    · have hlen' : ¬ 3 ≤ w.length := by omega
      simp [textRelGo, hlen, hlen', ih]
    · have hlen' : 3 ≤ w.length := by omega
      by_cases hc : 0 < (textWords.filter fun t => strIncludes t w).length
      · have hzero : ¬ (textWords.filter fun t => strIncludes t w).length = 0 := by omega
        simp only [textRelGo, if_neg hlen, if_pos hc, ih,
          List.filter_cons, hlen', decide_True, if_true, List.map_cons, List.sum_cons,
          specTermScore, if_neg hzero]
        ring
      · have hzero : (textWords.filter fun t => strIncludes t w).length = 0 := by omega
        simp only [textRelGo, if_neg hlen, if_neg hc, ih,
          List.filter_cons, hlen', decide_True, if_true, List.map_cons, List.sum_cons,
          specTermScore, if_pos hzero]
        ring

/-- C6: for every query string and chunk text, the lexical textScore computed
by `calculateTextRelevance` equals the sum, over lowercase whitespace-split
query tokens of length at least 3, of
`(matchCount / chunkTokenCount) * ln(1 + chunkTokenCount / matchCount)`,
where matchCount counts lowercase chunk tokens containing the query token as
a substring; zero-match tokens contribute 0 (the positive-count guard of the
source makes the zero case add nothing, so no division by zero arises). -/
theorem c6_textScore_formula (query text : String) :
    calculateTextRelevance query text = specTextScore query text := by
  unfold calculateTextRelevance specTextScore
  rw [textRelGo_eq_sum]
  simp

/-! ### Hybrid search pipeline (stores-langchain.js lines 320-363)

`loadVectorStore().similaritySearchWithScore(query, k)` embeds the query,
computes for every indexed chunk a `vectorScore` (cosine similarity, via the
external embedding model and `cosSim`) and a `textScore`
(`calculateTextRelevance`), min-max normalises each family over the whole
candidate set with a `1e-9` denominator epsilon, blends
`0.7 * normVec + 0.3 * normTxt`, sorts descending by the blended score, takes
the first `k`, and reports `[doc, 1 - score]` pairs.

The per-chunk raw scores are inputs to the pipeline below (`SRec`), because
the embedding model is an external collaborator and `cosSim`/`Math.log` do
not produce rationals; everything from line 335 on (normalisation, blend,
sort, slice, distance) is translated exactly.  JavaScript
`Math.min(...[])` and `Math.max(...[])` are plus and minus Infinity on the
empty score list; those values are consumed only inside the map over the same
(empty) list, so the empty-list seed below is never observable. -/

/-- One candidate row as built on lines 329-333: the chunk id, its document
payload, and the two raw scores. -/
structure SRec (α : Type) where
  id : String
  doc : α
  vectorScore : ℚ
  textScore : ℚ
deriving DecidableEq

/-- The `1e-9` epsilon of lines 345-346. -/
def eps : ℚ := 1 / 1000000000

/-- JavaScript `Math.min(...xs)` over a score list (seed unused when empty). -/
def jsMinQ : List ℚ → ℚ
  | [] => 0
  | h :: t => t.foldl min h

/-- JavaScript `Math.max(...xs)` over a score list (seed unused when empty). -/
def jsMaxQ : List ℚ → ℚ
  | [] => 0
  | h :: t => t.foldl max h

/-- A scored row after blending (line 344-357). -/
structure Scored (α : Type) where
  doc : α
  score : ℚ
deriving DecidableEq

/-- Descending comparison used by `scored.sort((a, b) => b.score - a.score)`;
JavaScript sort is stable, as is insertion sort. -/
def descOrder {α : Type} : Scored α → Scored α → Prop :=
  fun a b => b.score ≤ a.score

instance {α : Type} : DecidableRel (descOrder (α := α)) :=
  fun a b => inferInstanceAs (Decidable (b.score ≤ a.score))

instance {α : Type} : IsTotal (Scored α) descOrder :=
  ⟨fun a b => le_total b.score a.score⟩

instance {α : Type} : IsTrans (Scored α) descOrder :=
  ⟨fun _ _ _ hab hbc => le_trans hbc hab⟩

/-- Translation of `similaritySearchWithScore` (lines 325-361) from the raw
per-chunk scores: min-max normalise, blend 0.7/0.3, sort descending, take
`k`, return `(doc, 1 - score)` pairs. -/
def similaritySearchWithScore {α : Type} (recs : List (SRec α)) (k : Nat) :
    List (α × ℚ) :=
  let vectorScores := recs.map (·.vectorScore)
  let textScores := recs.map (·.textScore)
  let minVec := jsMinQ vectorScores
  let maxVec := jsMaxQ vectorScores
  let minTxt := jsMinQ textScores
  let maxTxt := jsMaxQ textScores
  let scored := recs.map fun s =>
    let normVec := (s.vectorScore - minVec) / (maxVec - minVec + eps)
    let normTxt := (s.textScore - minTxt) / (maxTxt - minTxt + eps)
    Scored.mk s.doc (normVec * (7 / 10) + normTxt * (3 / 10))
  let sorted := List.insertionSort descOrder scored
  (sorted.take k).map fun s => (s.doc, 1 - s.score)

/-- C5: for every candidate-score table and every requested `k`, the search
returns exactly `min k corpusSize` results, ordered by non-decreasing
distance (equivalently non-increasing blended score, best match first). -/
theorem c5_search_contract {α : Type} (recs : List (SRec α)) (k : Nat) :
    (similaritySearchWithScore recs k).length = min k recs.length ∧
    List.Sorted (· ≤ ·) ((similaritySearchWithScore recs k).map Prod.snd) := by
  constructor
  · simp [similaritySearchWithScore]
  · unfold similaritySearchWithScore
    simp only [List.map_map]
    show List.Pairwise _ _
    refine List.Pairwise.map _ ?_
      (List.Pairwise.sublist (List.take_sublist _ _)
        (List.sorted_insertionSort descOrder _))
    intro a b hab
    exact sub_le_sub_left hab 1

/-- C7: searching an index with zero chunks returns the empty result
sequence; the min/max statistics over the empty score families are never
consumed because the blending map ranges over the same empty list. -/
theorem c7_empty_corpus {α : Type} (k : Nat) :
    similaritySearchWithScore ([] : List (SRec α)) k = [] := by
  simp [similaritySearchWithScore]

/-- C2 (amended): the source never skips normalisation and blending, whatever
the candidate-set size; over a single-chunk index both min and max coincide
with the lone raw score, both normalised scores are therefore 0, the blended
score is 0, and the returned distance is exactly 1 — independent of the raw
cosine similarity. -/
theorem c2_singleton_distance_one {α : Type} (r : SRec α) (k : Nat)
    (hk : 1 ≤ k) :
    similaritySearchWithScore [r] k = [(r.doc, 1)] := by
  obtain ⟨m, rfl⟩ : ∃ m, k = m + 1 := ⟨k - 1, by omega⟩
  simp [similaritySearchWithScore, jsMinQ, jsMaxQ, descOrder]

/-- Witness for the amended C2 theorem at a concrete singleton index. -/
theorem c2_singleton_witness :
    (1 : Nat) ≤ 1 ∧
      similaritySearchWithScore [SRec.mk "1" (0 : Nat) (1 / 2) 0] 1 =
        [((0 : Nat), 1)] :=
  ⟨le_refl 1, c2_singleton_distance_one (SRec.mk "1" (0 : Nat) (1 / 2) 0) 1 (le_refl 1)⟩

/-- C2 counterexample: a single-chunk index whose chunk has raw vector
(cosine) similarity 1/2; the code returns distance 1, not
1 - 1/2 as the claim (raw-similarity fallback for candidate sets smaller
than 2) requires. -/
theorem c2_counterexample :
    (similaritySearchWithScore [SRec.mk "1" (0 : Nat) (1 / 2) 0] 1).map Prod.snd
        = [1] ∧
      ¬ ((1 : ℚ) = 1 - (SRec.mk "1" (0 : Nat) (1 / 2) 0).vectorScore) := by
  constructor
  · simp [similaritySearchWithScore, jsMinQ, jsMaxQ, descOrder]
  · norm_num

/-! ### Enhanced chunker (stores-langchain.js lines 177-228)

`chunkTextEnhanced(text, maxTokens, overlapTokens)` splits the text into
paragraphs with `/\n\s*\n/`, each paragraph into sentences with `/[.!?]+/`,
and accumulates sentences into a running chunk tracking a true token count
(`countTokens`, the external BPE tokenizer, abstracted as `tok`).  When the
next sentence would push the running count over the budget and the current
chunk is non-empty, the chunk is closed and the next one is seeded with the
trailing `overlapTokens * 4` characters of the closed text.

The regex `/[.!?]+/` collapses terminator runs where `String.split` on the
same characters yields extra empty pieces; both are skipped by the blank
check of line 189, so the sequence of processed sentences coincides. -/

/-- One maximal whitespace run against `/\n\s*\n/`: with at least two
newlines in the run the regex matches from its first to its last newline;
the surrounding whitespace stays with the neighbouring pieces. -/
def wsRunSplit (run : List Char) : Option (List Char × List Char) :=
  if 2 ≤ (run.filter fun c => c == '\n').length then
    some (run.takeWhile fun c => ¬ c == '\n',
      (run.reverse.takeWhile fun c => ¬ c == '\n').reverse)
  else none

/-- Scanner for the JS paragraph split `text.split(/\n\s*\n/)`: walk the
characters, gathering the pending whitespace run (`runRev`) and the current
piece (`acc`), both newest-first; each maximal whitespace run is checked as
a potential separator when it ends. -/
def paraScan : List Char → List Char → List Char → List String
  | [], runRev, acc =>
    (match wsRunSplit runRev.reverse with
      | some (pre, post) => [String.mk (acc.reverse ++ pre), String.mk post]
      | none => [String.mk (acc.reverse ++ runRev.reverse)])
  | c :: rest, runRev, acc =>
    if c.isWhitespace then paraScan rest (c :: runRev) acc
    else
      match runRev with
      | [] => paraScan rest [] (c :: acc)
      | _ :: _ =>
        match wsRunSplit runRev.reverse with
        | some (pre, post) =>
          String.mk (acc.reverse ++ pre) :: paraScan rest [] (c :: post.reverse)
        | none => paraScan rest [] (c :: (runRev ++ acc))

/-- Model of `text.split(/\n\s*\n/)`. -/
def splitParagraphs (s : String) : List String :=
  paraScan s.toList [] []

/-- Model of `paragraph.split(/[.!?]+/)` (modulo blank pieces, see above). -/
def sentenceSplit (p : String) : List String :=
  (splitChars (fun c => c == '.' || c == '!' || c == '?') p.toList).map
    String.mk

/-- An emitted chunk: `{text, start, end, tokens}` (the JS field `end` is
called `stop` here because `end` is a Lean keyword). -/
structure ChunkE where
  text : String
  start : Nat
  stop : Nat
  tokens : Nat
deriving DecidableEq

/-- The loop state of lines 180-182: accumulated chunks, current chunk text
and current running token count. -/
structure LoopState where
  chunks : List ChunkE
  cur : String
  curTok : Nat
deriving DecidableEq

/-- The body of the sentence loop (lines 188-211). -/
def procSentence (tok : String → Nat) (M O : Nat) (st : LoopState)
    (s : String) : LoopState :=
  if jsTrim s = "" then st
  else
    let sTok := tok s
    if M < st.curTok + sTok ∧ ¬ st.cur = "" then
      let closed : ChunkE :=
        ⟨jsTrim st.cur, st.chunks.length, st.chunks.length + 1, st.curTok⟩
      let overlapText := jsSliceNeg st.cur (O * 4)
      ⟨st.chunks ++ [closed], overlapText ++ s ++ ". ", tok overlapText + sTok⟩
    else
      ⟨st.chunks, st.cur ++ s ++ ". ", st.curTok + sTok⟩

/-- The body of the paragraph loop (lines 184-215): blank paragraphs are
skipped, otherwise the sentences run through `procSentence` and a paragraph
break `"\n\n"` is appended to the current chunk. -/
def procParagraph (tok : String → Nat) (M O : Nat) (st : LoopState)
    (p : String) : LoopState :=
  if jsTrim p = "" then st
  else
    let st2 := (sentenceSplit p).foldl (procSentence tok M O) st
    ⟨st2.chunks, st2.cur ++ "\n\n", st2.curTok⟩

/-- Translation of `chunkTextEnhanced(text, maxTokens, overlapTokens)` with
the external tokenizer `countTokens` abstracted as `tok`. -/
def chunkTextEnhanced (tok : String → Nat) (text : String) (M O : Nat) :
    List ChunkE :=
  let st := (splitParagraphs text).foldl (procParagraph tok M O) ⟨[], "", 0⟩
  if ¬ jsTrim st.cur = "" then
    st.chunks ++ [⟨jsTrim st.cur, st.chunks.length, st.chunks.length + 1, st.curTok⟩]
  else st.chunks

/-- `ChunkE` with a ghost field: the running token count the chunk had when
it was created (overlap seed plus first sentence, or first sentence alone).
Used to characterise which chunks may exceed the budget. -/
structure ChunkEI where
  text : String
  start : Nat
  stop : Nat
  tokens : Nat
  initTokens : Nat
deriving DecidableEq

/-- `LoopState` with the ghost creation count of the current chunk. -/
structure LoopStateI where
  chunks : List ChunkEI
  cur : String
  curTok : Nat
  curInit : Nat
deriving DecidableEq

/-- Instrumented sentence step: identical to `procSentence` except that it
also tracks when the current chunk was (re)created. -/
def procSentenceI (tok : String → Nat) (M O : Nat) (st : LoopStateI)
    (s : String) : LoopStateI :=
  if jsTrim s = "" then st
  else
    let sTok := tok s
    if M < st.curTok + sTok ∧ ¬ st.cur = "" then
      let closed : ChunkEI :=
        ⟨jsTrim st.cur, st.chunks.length, st.chunks.length + 1, st.curTok,
          st.curInit⟩
      let overlapText := jsSliceNeg st.cur (O * 4)
      ⟨st.chunks ++ [closed], overlapText ++ s ++ ". ",
        tok overlapText + sTok, tok overlapText + sTok⟩
    else
      ⟨st.chunks, st.cur ++ s ++ ". ", st.curTok + sTok,
        if st.cur = "" then st.curTok + sTok else st.curInit⟩

/-- Instrumented paragraph step. -/
def procParagraphI (tok : String → Nat) (M O : Nat) (st : LoopStateI)
    (p : String) : LoopStateI :=
  if jsTrim p = "" then st
  else
    let st2 := (sentenceSplit p).foldl (procSentenceI tok M O) st
    ⟨st2.chunks, st2.cur ++ "\n\n", st2.curTok, st2.curInit⟩

/-- Instrumented chunker. -/
def chunkTextEnhancedI (tok : String → Nat) (text : String) (M O : Nat) :
    List ChunkEI :=
  let st := (splitParagraphs text).foldl (procParagraphI tok M O) ⟨[], "", 0, 0⟩
  if ¬ jsTrim st.cur = "" then
    st.chunks ++
      [⟨jsTrim st.cur, st.chunks.length, st.chunks.length + 1, st.curTok,
        st.curInit⟩]
  else st.chunks

/-- Forget the ghost field. -/
def eraseInit (c : ChunkEI) : ChunkE :=
  ⟨c.text, c.start, c.stop, c.tokens⟩

/-- Forget the ghost parts of an instrumented loop state. -/
def projState (st : LoopStateI) : LoopState :=
  ⟨st.chunks.map eraseInit, st.cur, st.curTok⟩

theorem projState_procSentence (tok : String → Nat) (M O : Nat)
    (st : LoopStateI) (s : String) :
    procSentence tok M O (projState st) s = projState (procSentenceI tok M O st s) := by
  unfold procSentence procSentenceI projState eraseInit
  by_cases h1 : jsTrim s = ""
  · simp [h1]
  · by_cases h2 : M < st.curTok + tok s ∧ ¬ st.cur = ""
    · simp [h1, h2]
    · simp [h1, h2]

theorem projState_foldl_sentences (tok : String → Nat) (M O : Nat) :
    ∀ (ss : List String) (st : LoopStateI),
      ss.foldl (procSentence tok M O) (projState st) =
        projState (ss.foldl (procSentenceI tok M O) st) := by
  intro ss
  induction ss with
  | nil => intro st; rfl
  | cons s ss ih =>
    intro st
    simp only [List.foldl_cons, projState_procSentence, ih]

theorem projState_procParagraph (tok : String → Nat) (M O : Nat)
    (st : LoopStateI) (p : String) :
    procParagraph tok M O (projState st) p = projState (procParagraphI tok M O st p) := by
  unfold procParagraph procParagraphI
  by_cases h1 : jsTrim p = ""
  · simp [h1]
  · simp only [h1, if_neg, projState_foldl_sentences]
    rfl

theorem projState_foldl_paragraphs (tok : String → Nat) (M O : Nat) :
    ∀ (ps : List String) (st : LoopStateI),
      ps.foldl (procParagraph tok M O) (projState st) =
        projState (ps.foldl (procParagraphI tok M O) st) := by
  intro ps
  induction ps with
  | nil => intro st; rfl
  | cons p ps ih =>
    intro st
    simp only [List.foldl_cons, projState_procParagraph, ih]

/-- The plain chunker is the instrumented chunker with the ghost field
forgotten. -/
theorem chunkTextEnhanced_eq_instrumented (tok : String → Nat) (text : String)
    (M O : Nat) :
    chunkTextEnhanced tok text M O = (chunkTextEnhancedI tok text M O).map eraseInit := by
  unfold chunkTextEnhanced chunkTextEnhancedI
  have hinit : (⟨[], "", 0⟩ : LoopState) = projState ⟨[], "", 0, 0⟩ := rfl
  rw [hinit, projState_foldl_paragraphs]
  set st := (splitParagraphs text).foldl (procParagraphI tok M O) ⟨[], "", 0, 0⟩
  by_cases h : jsTrim st.cur = ""
  · simp [projState, h]
  · simp [projState, h, eraseInit]

/-- A chunk is within budget, or it never received a sentence after its
creation (its recorded count is still its creation count). -/
def chunkOk (M : Nat) (c : ChunkEI) : Prop :=
  c.tokens ≤ M ∨ c.tokens = c.initTokens

/-- Loop invariant: the running count is within budget or untouched since
the current chunk was created, and every emitted chunk is `chunkOk`. -/
def stateOk (M : Nat) (st : LoopStateI) : Prop :=
  (st.curTok ≤ M ∨ st.curTok = st.curInit) ∧ ∀ c ∈ st.chunks, chunkOk M c

theorem stateOk_procSentenceI (tok : String → Nat) (M O : Nat)
    (st : LoopStateI) (s : String) (h : stateOk M st) :
    stateOk M (procSentenceI tok M O st s) := by
  unfold procSentenceI
  by_cases h1 : jsTrim s = ""
  · simpa [h1] using h
  · by_cases h2 : M < st.curTok + tok s ∧ ¬ st.cur = ""
    · simp only [h1, h2, if_neg, if_pos, if_true, if_false]
      refine ⟨Or.inr rfl, ?_⟩
      intro c hc
      simp only [stateOk] at h
      rcases List.mem_append.mp hc with hold | hnew
      · exact h.2 c hold
      · rcases List.mem_singleton.mp hnew with rfl
        exact h.1
    · simp only [h1, h2, if_neg, if_false]
      rcases not_and_or.mp h2 with hle | hemp
      · have hle' : st.curTok + tok s ≤ M := by omega
        exact ⟨Or.inl hle', h.2⟩
      · have hemp' : st.cur = "" := by
          by_contra hx
          exact hemp hx
        refine ⟨Or.inr ?_, h.2⟩
        simp [hemp']

theorem stateOk_foldl_sentences (tok : String → Nat) (M O : Nat) :
    ∀ (ss : List String) (st : LoopStateI), stateOk M st →
      stateOk M (ss.foldl (procSentenceI tok M O) st) := by
  intro ss
  induction ss with
  | nil => intro st h; exact h
  | cons s ss ih =>
    intro st h
    exact ih _ (stateOk_procSentenceI tok M O st s h)

theorem stateOk_procParagraphI (tok : String → Nat) (M O : Nat)
    (st : LoopStateI) (p : String) (h : stateOk M st) :
    stateOk M (procParagraphI tok M O st p) := by
  unfold procParagraphI
  by_cases h1 : jsTrim p = ""
  · simpa [h1] using h
  · simp only [h1, if_neg, if_false]
    exact stateOk_foldl_sentences tok M O (sentenceSplit p) st h

theorem stateOk_foldl_paragraphs (tok : String → Nat) (M O : Nat) :
    ∀ (ps : List String) (st : LoopStateI), stateOk M st →
      stateOk M (ps.foldl (procParagraphI tok M O) st) := by
  intro ps
  induction ps with
  | nil => intro st h; exact h
  | cons p ps ih =>
    intro st h
    exact ih _ (stateOk_procParagraphI tok M O st p h)

/-- C3 (amended): the enhanced chunker terminates on every input (it is a
total function of the paragraph and sentence structure), and every emitted
chunk either respects the token budget `M` or still carries exactly the
token count it was created with — a single oversized sentence, or an
overlap seed whose token count plus the first sentence already exceeds `M`
(the character-sliced seed is not bounded by the overlap token budget).
Such a chunk receives no further sentences.  The plain chunker and its
ghost-instrumented version agree chunk for chunk. -/
theorem c3_token_budget_amended (tok : String → Nat) (text : String)
    (M O : Nat) :
    chunkTextEnhanced tok text M O = (chunkTextEnhancedI tok text M O).map eraseInit ∧
    ∀ c ∈ chunkTextEnhancedI tok text M O, c.tokens ≤ M ∨ c.tokens = c.initTokens := by
  refine ⟨chunkTextEnhanced_eq_instrumented tok text M O, ?_⟩
  unfold chunkTextEnhancedI
  have hst : stateOk M ((splitParagraphs text).foldl (procParagraphI tok M O) ⟨[], "", 0, 0⟩) := by
    refine stateOk_foldl_paragraphs tok M O _ _ ?_
    exact ⟨Or.inl (Nat.zero_le M), by intro c hc; cases hc⟩
  set st := (splitParagraphs text).foldl (procParagraphI tok M O) ⟨[], "", 0, 0⟩
  by_cases h : jsTrim st.cur = ""
  · simp only [h, not_true, if_neg, if_false]
    exact hst.2
  · simp only [h, not_false_iff, if_pos]
    intro c hc
    rcases List.mem_append.mp hc with hold | hnew
    · exact hst.2 c hold
    · rcases List.mem_singleton.mp hnew with rfl
      exact hst.1

/-- C3 counterexample: with the tokenizer that counts every character as a
token, budget 10 and overlap 2, the text below yields a chunk recorded at
16 tokens (it begins with the 8-character overlap seed of the previous
chunk), although every sentence of the text is at most 10 tokens — the
single-oversized-sentence exception of the claim does not apply. -/
theorem c3_counterexample :
    (∃ c ∈ chunkTextEnhanced String.length "abcdefgh. hijklmn. op." 10 2,
        10 < c.tokens) ∧
      ∀ p ∈ splitParagraphs "abcdefgh. hijklmn. op.",
        ∀ s ∈ sentenceSplit p, String.length s ≤ 10 := by
  decide

/-! ### Token-window chunker (chunker.js lines 4-14)

`chunkText(text, maxTokens, overlapTokens)` encodes the text to token ids
(external BPE encoder: the id list is taken as input and the decoder as a
parameter `dec`), then slices windows `[start, start + maxTokens)` stepping
by `maxTokens - overlapTokens`, breaking after a window that reaches the end
of the id list.  In JavaScript the step is an ordinary number: when
`overlapTokens >= maxTokens` the step is zero or negative, `start` never
moves forward, and the loop does not terminate as soon as the id list is
longer than `maxTokens`.  The loop is therefore embedded with explicit fuel
returning `none` when the fuel runs out, and `start` is an integer. -/

/-- A window chunk: `{text, start, end}` (JS field `end` is `stop` here). -/
structure ChunkW where
  text : String
  start : Int
  stop : Int
deriving DecidableEq

/-- JavaScript `Array.prototype.slice(s, e)` with possibly negative
indices. -/
def jsSlice (l : List Nat) (s e : Int) : List Nat :=
  let n : Int := l.length
  let s2 := if s < 0 then max (n + s) 0 else min s n
  let e2 := if e < 0 then max (n + e) 0 else min e n
  (l.take e2.toNat).drop s2.toNat

/-- The loop of `chunkText` with explicit fuel; returns the chunks pushed
from the given `start` onwards, or `none` when the fuel is exhausted. -/
def chunkTextLoop (dec : List Nat → String) (ids : List Nat) (M O : Nat) :
    Int → Nat → Option (List ChunkW)
  | _, 0 => none
  | start, fuel + 1 =>
    if start < (ids.length : Int) then
      let e := min (start + (M : Int)) (ids.length : Int)
      let sub := jsSlice ids start e
      let c : ChunkW := ⟨dec sub, start, e⟩
      if e = (ids.length : Int) then some [c]
      else
        match chunkTextLoop dec ids M O (start + ((M : Int) - (O : Int))) fuel with
        | none => none
        | some cs => some (c :: cs)
    else some []

/-- Translation of `chunkText` from the encoded id list, starting at 0. -/
def chunkText (dec : List Nat → String) (ids : List Nat) (M O : Nat)
    (fuel : Nat) : Option (List ChunkW) :=
  chunkTextLoop dec ids M O 0 fuel

theorem chunkTextLoop_terminates (dec : List Nat → String) (ids : List Nat)
    (M O : Nat) (hMO : O < M) :
    ∀ (fuel : Nat) (start : Int), 0 < fuel →
      (ids.length : Int) - start < (fuel : Int) →
      (chunkTextLoop dec ids M O start fuel).isSome = true := by
  intro fuel
  induction fuel with
  | zero => intro start h0 h; omega
  | succ f ih =>
    intro start h0 h
    unfold chunkTextLoop
    by_cases hlt : start < (ids.length : Int)
    · simp only [hlt, if_pos, if_true]
      by_cases hend : min (start + (M : Int)) (ids.length : Int) = (ids.length : Int)
      · simp [hend]
      · have hlt2 : start + (M : Int) < (ids.length : Int) := by
          rcases le_or_lt (ids.length : Int) (start + (M : Int)) with hc | hc
          · exact absurd (min_eq_right hc) hend
          · exact hc
        simp only [hend, if_neg, if_false]
        have hf : 0 < f := by push_cast at h; omega
        have hrec := ih (start + ((M : Int) - (O : Int))) hf
          (by push_cast at h ⊢; omega)
        rcases hopt : chunkTextLoop dec ids M O (start + ((M : Int) - (O : Int))) f with _ | cs
        · rw [hopt] at hrec; simp at hrec
        · simp
    · simp [hlt]

theorem chunkTextLoop_stuck (dec : List Nat → String) (ids : List Nat)
    (M O : Nat) (hMO : M ≤ O) (hlen : (M : Int) < (ids.length : Int)) :
    ∀ (fuel : Nat) (start : Int), start ≤ 0 →
      chunkTextLoop dec ids M O start fuel = none := by
  intro fuel
  induction fuel with
  | zero => intro start _; rfl
  | succ f ih =>
    intro start hstart
    unfold chunkTextLoop
    have hlt : start < (ids.length : Int) := by omega
    have hend : ¬ min (start + (M : Int)) (ids.length : Int) = (ids.length : Int) := by
      have : start + (M : Int) < (ids.length : Int) := by omega
      rw [min_eq_left (le_of_lt this)]
      omega
    simp only [hlt, if_pos, if_true, hend, if_neg, if_false]
    rw [ih (start + ((M : Int) - (O : Int))) (by omega)]

/-- C10: the token-window chunker terminates for every input when
`overlapTokens < maxTokens` (fuel `#ids + 1` suffices, since the start
index advances by at least one token per iteration or the loop breaks at
the end of the ids); when `maxTokens <= overlapTokens` and the text holds
more than `maxTokens` tokens, the start index never advances past the end
and the loop never terminates, whatever the fuel — so
`overlapTokens < maxTokens` is a required precondition. -/
theorem c10_chunkText_termination (dec : List Nat → String) (ids : List Nat)
    (M O : Nat) :
    (O < M → (chunkText dec ids M O (ids.length + 1)).isSome = true) ∧
      (M ≤ O → M < ids.length → ∀ fuel, chunkText dec ids M O fuel = none) := by
  constructor
  · intro hMO
    apply chunkTextLoop_terminates dec ids M O hMO _ _ (by omega)
    push_cast
    omega
  · intro hMO hlen fuel
    apply chunkTextLoop_stuck dec ids M O hMO (by exact_mod_cast hlen) fuel 0 le_rfl

/-- Witness for C10 at concrete inputs: ids `[7, 8, 9]` with budget 2 and
overlap 1 chunk successfully; with budget 1 and overlap 2 the loop returns
`none` for the concrete fuel 100. -/
theorem c10_chunkText_termination_witness :
    (chunkText (fun _ => "") [7, 8, 9] 2 1 4).isSome = true ∧
      chunkText (fun _ => "") [7, 8, 9] 1 2 100 = none :=
  ⟨(c10_chunkText_termination (fun _ => "") [7, 8, 9] 2 1).1 (by decide),
    (c10_chunkText_termination (fun _ => "") [7, 8, 9] 1 2).2 (by decide)
      (by decide) 100⟩

theorem chunkTextLoop_det (dec : List Nat → String) (ids : List Nat)
    (M O : Nat) :
    ∀ (f1 f2 : Nat) (start : Int) (r1 r2 : List ChunkW),
      chunkTextLoop dec ids M O start f1 = some r1 →
      chunkTextLoop dec ids M O start f2 = some r2 → r1 = r2 := by
  intro f1
  induction f1 with
  | zero => intro f2 start r1 r2 h1; simp [chunkTextLoop] at h1
  | succ g ih =>
    intro f2 start r1 r2 h1 h2
    cases f2 with
    | zero => simp [chunkTextLoop] at h2
    | succ h =>
      unfold chunkTextLoop at h1 h2
      by_cases hlt : start < (ids.length : Int)
      · simp only [hlt, if_pos, if_true] at h1 h2
        by_cases hend : min (start + (M : Int)) (ids.length : Int) = (ids.length : Int)
        · simp only [hend, if_pos, if_true] at h1 h2
          rw [← Option.some.inj h1, ← Option.some.inj h2]
        · simp only [hend, if_neg, if_false] at h1 h2
          rcases hh1 : chunkTextLoop dec ids M O (start + ((M : Int) - (O : Int))) g
            with _ | cs1 <;> rw [hh1] at h1
          · exact absurd h1 (by simp)
          · rcases hh2 : chunkTextLoop dec ids M O (start + ((M : Int) - (O : Int))) h
              with _ | cs2 <;> rw [hh2] at h2
            · exact absurd h2 (by simp)
            · have hcs := ih h (start + ((M : Int) - (O : Int))) cs1 cs2 hh1 hh2
              rw [← Option.some.inj h1, ← Option.some.inj h2, hcs]
      · simp only [hlt, if_neg, if_false] at h1 h2
        rw [← Option.some.inj h1, ← Option.some.inj h2]

/-- C8: chunking is deterministic.  For the token-window chunker the result
is independent of the fuel whenever the loop finishes (the embedded loop
consumes no ambient state), and the sentence-accumulating enhanced chunker
is a pure function, so two calls with identical arguments give identical
chunks, boundaries and token counts. -/
theorem c8_chunk_determinism :
    (∀ (dec : List Nat → String) (ids : List Nat) (M O f1 f2 : Nat)
        (r1 r2 : List ChunkW),
        chunkText dec ids M O f1 = some r1 →
        chunkText dec ids M O f2 = some r2 → r1 = r2) ∧
      ∀ (tok : String → Nat) (text : String) (M O : Nat),
        chunkTextEnhanced tok text M O = chunkTextEnhanced tok text M O :=
  ⟨fun dec ids M O f1 f2 r1 r2 h1 h2 =>
      chunkTextLoop_det dec ids M O f1 f2 0 r1 r2 h1 h2,
    fun _ _ _ _ => rfl⟩

/-- Witness for C8: two runs of the token-window chunker with different fuel
on the same concrete input produce the same concrete chunk list. -/
theorem c8_chunk_determinism_witness :
    chunkText (fun _ => "") [1, 2, 3] 2 1 5 =
        some [ChunkW.mk "" 0 2, ChunkW.mk "" 1 3] ∧
      chunkText (fun _ => "") [1, 2, 3] 2 1 9 =
        some [ChunkW.mk "" 0 2, ChunkW.mk "" 1 3] ∧
      ([ChunkW.mk "" 0 2, ChunkW.mk "" 1 3] : List ChunkW) =
        [ChunkW.mk "" 0 2, ChunkW.mk "" 1 3] :=
  ⟨by decide, by decide,
    c8_chunk_determinism.1 (fun _ => "") [1, 2, 3] 2 1 5 9 _ _ (by decide)
      (by decide)⟩

/-! ### Checksum tracker (stores-langchain.js lines 421-497)

`checkDocumentStatus(docsDir)` groups the persisted chunk metadata by
source into a map whose iteration order is first-occurrence order, reads
the directory listing, computes a checksum per listed file (md5 of the
decoded text, or a name-size-mtime string for PDFs — both modelled as the
opaque fingerprint carried by the listing entry), and classifies: a listed
file whose source has recorded chunks is `unchanged` when the current
checksum occurs among the recorded checksums of that source and `modified`
otherwise; a listed file with no recorded chunks is `new`; a recorded
source absent from the listing is `deleted`.  Filesystem failures (the
catch branch pushing unreadable files to `modified`) are outside the pure
model. -/

/-- One persisted chunk metadata record, restricted to the fields the
tracker reads. -/
structure MetaRec where
  source : String
  checksum : String
deriving DecidableEq

/-- One directory-listing entry: the filename and the fingerprint computed
from its current content. -/
structure FileEntry where
  name : String
  checksum : String
deriving DecidableEq

/-- The four classification buckets. -/
structure DocStatus where
  unchanged : List String
  modified : List String
  new : List String
  deleted : List String
deriving DecidableEq

/-- First-occurrence deduplication: the iteration order of a JS `Map`
keyed by source. -/
def dedupFirst : List String → List String
  | [] => []
  | x :: xs => x :: dedupFirst (xs.filter fun y => ¬ y = x)
termination_by l => l.length
decreasing_by
  exact Nat.lt_succ_of_le (List.length_filter_le _ _)

/-- The recorded checksum set of one source (the `checksums` set of the
grouped map entry). -/
def sourceChecksums (meta : List MetaRec) (src : String) : List String :=
  (meta.filter fun m => m.source = src).map (·.checksum)

/-- JS `existingDocs.has(filename)`: the source has recorded chunks. -/
def isRecorded (meta : List MetaRec) (f : FileEntry) : Bool :=
  decide (f.name ∈ meta.map (·.source))

/-- JS `existing.checksums.has(currentChecksum)`: the current fingerprint
occurs among the recorded ones of this source. -/
def isMatch (meta : List MetaRec) (f : FileEntry) : Bool :=
  decide (f.checksum ∈ sourceChecksums meta f.name)

/-- The `files.forEach` classification loop (lines 451-483). -/
def classifyFiles (meta : List MetaRec) : List FileEntry → DocStatus
  | [] => ⟨[], [], [], []⟩
  | f :: fs =>
    let rest := classifyFiles meta fs
    if isRecorded meta f then
      if isMatch meta f then
        { rest with unchanged := f.name :: rest.unchanged }
      else { rest with modified := f.name :: rest.modified }
    else { rest with new := f.name :: rest.new }

/-- Translation of `checkDocumentStatus`: classify the listing, then mark
recorded sources missing from the listing as deleted. -/
def checkDocumentStatus (meta : List MetaRec) (files : List FileEntry) :
    DocStatus :=
  let st := classifyFiles meta files
  { st with
    deleted :=
      (dedupFirst (meta.map (·.source))).filter
        fun s => ¬ s ∈ files.map (·.name) }

theorem classifyFiles_unchanged (meta : List MetaRec) :
    ∀ (files : List FileEntry),
      (classifyFiles meta files).unchanged =
        ((files.filter fun f => isRecorded meta f && isMatch meta f).map
          (·.name)) := by
  intro files
  induction files with
  | nil => rfl
  | cons f fs ih =>
    simp only [classifyFiles, List.filter_cons]
    cases hrec : isRecorded meta f <;> cases hmat : isMatch meta f <;>
      simp [hrec, hmat, ih]

theorem classifyFiles_modified (meta : List MetaRec) :
    ∀ (files : List FileEntry),
      (classifyFiles meta files).modified =
        ((files.filter fun f => isRecorded meta f && !isMatch meta f).map
          (·.name)) := by
  intro files
  induction files with
  | nil => rfl
  | cons f fs ih =>
    simp only [classifyFiles, List.filter_cons]
    cases hrec : isRecorded meta f <;> cases hmat : isMatch meta f <;>
      simp [hrec, hmat, ih]

theorem classifyFiles_new (meta : List MetaRec) :
    ∀ (files : List FileEntry),
      (classifyFiles meta files).new =
        ((files.filter fun f => !isRecorded meta f).map (·.name)) := by
  intro files
  induction files with
  | nil => rfl
  | cons f fs ih =>
    simp only [classifyFiles, List.filter_cons]
    cases hrec : isRecorded meta f <;> cases hmat : isMatch meta f <;>
      simp [hrec, hmat, ih]

theorem mem_dedupFirst : ∀ (l : List String) (x : String),
    x ∈ dedupFirst l ↔ x ∈ l := by
  have key : ∀ (n : Nat) (l : List String), l.length ≤ n → ∀ x,
      (x ∈ dedupFirst l ↔ x ∈ l) := by
    intro n
    induction n with
    | zero =>
      intro l hl x
      cases l with
      | nil => simp [dedupFirst]
      | cons a as => simp at hl
    | succ n ih =>
      intro l hl x
      cases l with
      | nil => simp [dedupFirst]
      | cons a as =>
        rw [dedupFirst]
        have hlen : (as.filter fun y => ¬ y = a).length ≤ n := by
          have h1 := List.length_filter_le (fun y => ¬ y = a) as
          simp only [List.length_cons] at hl
          omega
        rw [List.mem_cons, List.mem_cons, ih _ hlen]
        by_cases hxa : x = a
        · simp [hxa]
        · simp [hxa, List.mem_filter]
  intro l x
  exact key l.length l le_rfl x

theorem mem_unchanged_iff (meta : List MetaRec) (files : List FileEntry)
    (x : String) :
    x ∈ (checkDocumentStatus meta files).unchanged ↔
      ∃ f, f ∈ files ∧ isRecorded meta f = true ∧ isMatch meta f = true ∧
        f.name = x := by
  show x ∈ (classifyFiles meta files).unchanged ↔ _
  rw [classifyFiles_unchanged]
  simp only [List.mem_map, List.mem_filter, Bool.and_eq_true]
  constructor
  · rintro ⟨f, ⟨hf, hrec, hmat⟩, hname⟩
    exact ⟨f, hf, hrec, hmat, hname⟩
  · rintro ⟨f, hf, hrec, hmat, hname⟩
    exact ⟨f, ⟨hf, hrec, hmat⟩, hname⟩

theorem mem_modified_iff (meta : List MetaRec) (files : List FileEntry)
    (x : String) :
    x ∈ (checkDocumentStatus meta files).modified ↔
      ∃ f, f ∈ files ∧ isRecorded meta f = true ∧ isMatch meta f = false ∧
        f.name = x := by
  show x ∈ (classifyFiles meta files).modified ↔ _
  rw [classifyFiles_modified]
  simp only [List.mem_map, List.mem_filter, Bool.and_eq_true,
    Bool.not_eq_true']
  constructor
  · rintro ⟨f, ⟨hf, hrec, hmat⟩, hname⟩
    exact ⟨f, hf, hrec, hmat, hname⟩
  · rintro ⟨f, hf, hrec, hmat, hname⟩
    exact ⟨f, ⟨hf, hrec, hmat⟩, hname⟩

theorem mem_new_iff (meta : List MetaRec) (files : List FileEntry)
    (x : String) :
    x ∈ (checkDocumentStatus meta files).new ↔
      ∃ f, f ∈ files ∧ isRecorded meta f = false ∧ f.name = x := by
  show x ∈ (classifyFiles meta files).new ↔ _
  rw [classifyFiles_new]
  simp only [List.mem_map, List.mem_filter, Bool.not_eq_true']
  constructor
  · rintro ⟨f, ⟨hf, hrec⟩, hname⟩
    exact ⟨f, hf, hrec, hname⟩
  · rintro ⟨f, hf, hrec, hname⟩
    exact ⟨f, ⟨hf, hrec⟩, hname⟩

theorem mem_deleted_iff (meta : List MetaRec) (files : List FileEntry)
    (x : String) :
    x ∈ (checkDocumentStatus meta files).deleted ↔
      x ∈ meta.map (·.source) ∧ ¬ x ∈ files.map (·.name) := by
  show x ∈ (dedupFirst (meta.map (·.source))).filter _ ↔ _
  simp [List.mem_filter, mem_dedupFirst]

/-- C4: for every set of existing records and every directory listing with
distinct filenames, the diff classifies: listed-but-unrecorded files as
`new`; listed and recorded files as `unchanged` or `modified` according to
whether the current fingerprint occurs among the recorded ones; recorded
sources missing from the listing as `deleted`.  Every involved filename
lands in at least one bucket and the four buckets are pairwise disjoint. -/
theorem c4_checksum_diff (meta : List MetaRec) (files : List FileEntry)
    (hnd : (files.map (·.name)).Nodup) (st : DocStatus)
    (hst : st = checkDocumentStatus meta files) :
    (∀ f ∈ files, ¬ f.name ∈ meta.map (·.source) → f.name ∈ st.new) ∧
      (∀ f ∈ files, f.name ∈ meta.map (·.source) →
        f.checksum ∈ sourceChecksums meta f.name → f.name ∈ st.unchanged) ∧
      (∀ f ∈ files, f.name ∈ meta.map (·.source) →
        ¬ f.checksum ∈ sourceChecksums meta f.name → f.name ∈ st.modified) ∧
      (∀ m ∈ meta, ¬ m.source ∈ files.map (·.name) → m.source ∈ st.deleted) ∧
      (∀ x, (x ∈ files.map (·.name) ∨ x ∈ meta.map (·.source)) →
        x ∈ st.unchanged ∨ x ∈ st.modified ∨ x ∈ st.new ∨ x ∈ st.deleted) ∧
      (∀ x, ¬ (x ∈ st.unchanged ∧ x ∈ st.modified) ∧
        ¬ (x ∈ st.unchanged ∧ x ∈ st.new) ∧
        ¬ (x ∈ st.unchanged ∧ x ∈ st.deleted) ∧
        ¬ (x ∈ st.modified ∧ x ∈ st.new) ∧
        ¬ (x ∈ st.modified ∧ x ∈ st.deleted) ∧
        ¬ (x ∈ st.new ∧ x ∈ st.deleted)) := by
  subst hst
  have hinj := List.inj_on_of_nodup_map hnd
  refine ⟨?_, ?_, ?_, ?_, ?_, ?_⟩
  · intro f hf hrec
    exact (mem_new_iff meta files f.name).mpr
      ⟨f, hf, by simp [isRecorded, hrec], rfl⟩
  · intro f hf hrec hmat
    exact (mem_unchanged_iff meta files f.name).mpr
      ⟨f, hf, by simp [isRecorded, hrec], by simp [isMatch, hmat], rfl⟩
  · intro f hf hrec hmat
    exact (mem_modified_iff meta files f.name).mpr
      ⟨f, hf, by simp [isRecorded, hrec], by simp [isMatch, hmat], rfl⟩
  · intro m hm hnotin
    exact (mem_deleted_iff meta files m.source).mpr
      ⟨List.mem_map_of_mem _ hm, hnotin⟩
  · intro x hx
    rcases hx with hname | hsrc
    · rcases List.mem_map.mp hname with ⟨f, hf, rfl⟩
      cases hrec : isRecorded meta f with
      | false =>
        exact Or.inr (Or.inr (Or.inl
          ((mem_new_iff meta files f.name).mpr ⟨f, hf, hrec, rfl⟩)))
      | true =>
        cases hmat : isMatch meta f with
        | false =>
          exact Or.inr (Or.inl
            ((mem_modified_iff meta files f.name).mpr ⟨f, hf, hrec, hmat, rfl⟩))
        | true =>
          exact Or.inl
            ((mem_unchanged_iff meta files f.name).mpr ⟨f, hf, hrec, hmat, rfl⟩)
    · by_cases hname : x ∈ files.map (·.name)
      · rcases List.mem_map.mp hname with ⟨f, hf, rfl⟩
        cases hrec : isRecorded meta f with
        | false =>
          exact Or.inr (Or.inr (Or.inl
            ((mem_new_iff meta files f.name).mpr ⟨f, hf, hrec, rfl⟩)))
        | true =>
          cases hmat : isMatch meta f with
          | false =>
            exact Or.inr (Or.inl
              ((mem_modified_iff meta files f.name).mpr
                ⟨f, hf, hrec, hmat, rfl⟩))
          | true =>
            exact Or.inl
              ((mem_unchanged_iff meta files f.name).mpr
                ⟨f, hf, hrec, hmat, rfl⟩)
      · exact Or.inr (Or.inr (Or.inr
          ((mem_deleted_iff meta files x).mpr ⟨hsrc, hname⟩)))
  · intro x
    refine ⟨?_, ?_, ?_, ?_, ?_, ?_⟩
    · rintro ⟨hu, hm⟩
      rcases (mem_unchanged_iff meta files x).mp hu with ⟨f, hf, _, hfm, hfx⟩
      rcases (mem_modified_iff meta files x).mp hm with ⟨g, hg, _, hgm, hgx⟩
      have hfg : f = g := hinj hf hg (by rw [hfx, hgx])
      rw [hfg] at hfm
      rw [hfm] at hgm
      cases hgm
    · rintro ⟨hu, hn⟩
      rcases (mem_unchanged_iff meta files x).mp hu with ⟨f, hf, hfr, _, hfx⟩
      rcases (mem_new_iff meta files x).mp hn with ⟨g, hg, hgr, hgx⟩
      have hsamename : f.name = g.name := by rw [hfx, hgx]
      have : isRecorded meta f = isRecorded meta g := by
        simp [isRecorded, hsamename]
      rw [hfr, hgr] at this
      cases this
    · rintro ⟨hu, hd⟩
      rcases (mem_unchanged_iff meta files x).mp hu with ⟨f, hf, _, _, hfx⟩
      exact ((mem_deleted_iff meta files x).mp hd).2
        (hfx ▸ List.mem_map_of_mem _ hf)
    · rintro ⟨hm, hn⟩
      rcases (mem_modified_iff meta files x).mp hm with ⟨f, hf, hfr, _, hfx⟩
      rcases (mem_new_iff meta files x).mp hn with ⟨g, hg, hgr, hgx⟩
      have hsamename : f.name = g.name := by rw [hfx, hgx]
      have : isRecorded meta f = isRecorded meta g := by
        simp [isRecorded, hsamename]
      rw [hfr, hgr] at this
      cases this
    · rintro ⟨hm, hd⟩
      rcases (mem_modified_iff meta files x).mp hm with ⟨f, hf, _, _, hfx⟩
      exact ((mem_deleted_iff meta files x).mp hd).2
        (hfx ▸ List.mem_map_of_mem _ hf)
    · rintro ⟨hn, hd⟩
      rcases (mem_new_iff meta files x).mp hn with ⟨f, hf, _, hfx⟩
      exact ((mem_deleted_iff meta files x).mp hd).2
        (hfx ▸ List.mem_map_of_mem _ hf)

/-- Witness for C4: two recorded sources, a listing with one unchanged
file, one modified file and one new file. -/
theorem c4_checksum_diff_witness :
    "c.md" ∈ (checkDocumentStatus
      [MetaRec.mk "a.md" "A", MetaRec.mk "b.md" "B"]
      [FileEntry.mk "a.md" "A", FileEntry.mk "b.md" "B2",
        FileEntry.mk "c.md" "C"]).new ∧
    ¬ ("c.md" ∈ (checkDocumentStatus
      [MetaRec.mk "a.md" "A", MetaRec.mk "b.md" "B"]
      [FileEntry.mk "a.md" "A", FileEntry.mk "b.md" "B2",
        FileEntry.mk "c.md" "C"]).deleted ∧
      "c.md" ∈ (checkDocumentStatus
        [MetaRec.mk "a.md" "A", MetaRec.mk "b.md" "B"]
        [FileEntry.mk "a.md" "A", FileEntry.mk "b.md" "B2",
          FileEntry.mk "c.md" "C"]).new) := by
  have h := c4_checksum_diff
    [MetaRec.mk "a.md" "A", MetaRec.mk "b.md" "B"]
    [FileEntry.mk "a.md" "A", FileEntry.mk "b.md" "B2",
      FileEntry.mk "c.md" "C"]
    (by decide) _ rfl
  refine ⟨?_, ?_⟩
  · exact h.1 (FileEntry.mk "c.md" "C") (by decide) (by decide)
  · intro hcon
    exact ((h.2.2.2.2.2 "c.md").2.2.2.2.2) ⟨hcon.2, hcon.1⟩

/-! ### Index persistence and ingestion (stores-langchain.js lines 262-318,
ingestion script src/unnamed/part_002 lines 28-129)

`saveVectorStore(docs)` chunks each document with
`chunkTextEnhanced(content, 800, 120)`, numbers the chunks `1..n` with a
counter that starts at 0 on every call, embeds all chunk texts, and then
OVERWRITES vectors.json (`{ids, vectors}`), docs.json (`id -> {text,
metadata, vector}`) and meta.json (the flat metadata list) with exactly the
chunks of the documents passed in.  The ingestion script (full mode)
computes `filesToProcess = [...status.new, ...status.modified]`, exits
without writing when that list is empty, and otherwise calls
`saveVectorStore` with only those files.  The md5 checksum of the document
content is modelled as the content itself, the embedder as `embedFn`, the
date field is dropped (it never influences classification or search). -/

/-- A document handed to ingestion: raw content and source filename. -/
structure SDoc where
  pageContent : String
  source : String
deriving DecidableEq

/-- The per-chunk metadata of lines 274-287 (classification-relevant
fields). -/
structure EntryMeta where
  id : String
  source : String
  chunkIndex : Nat
  totalChunks : Nat
  tokens : Nat
  checksum : String
deriving DecidableEq

/-- The persisted read-state: vectors.json is `(ids, vectors)`, docs.json
maps id to `(text, vector)`, meta.json is the flat metadata list. -/
structure IndexState (V : Type) where
  ids : List String
  vectors : List V
  docsMap : List (String × String × V)
  meta : List EntryMeta
deriving DecidableEq

/-- The document loop of lines 265-291: chunk, then number the chunks with
the running counter `n` (`++idCounter` makes ids 1-based). -/
def buildProcessed (tok : String → Nat) :
    List SDoc → Nat → List (String × String × EntryMeta)
  | [], _ => []
  | d :: ds, n =>
    let chunks := chunkTextEnhanced tok d.pageContent 800 120
    (((List.range chunks.length).zip chunks).map fun p =>
      (toString (n + p.1 + 1), p.2.text,
        EntryMeta.mk (toString (n + p.1 + 1)) d.source p.1 chunks.length
          p.2.tokens d.pageContent)) ++
      buildProcessed tok ds (n + chunks.length)

/-- Translation of the enhanced `saveVectorStore` persisted effect. -/
def saveVectorStore {V : Type} (tok : String → Nat) (embedFn : String → V)
    (docs : List SDoc) : IndexState V :=
  let processed := buildProcessed tok docs 0
  { ids := processed.map (·.1),
    vectors := processed.map fun p => embedFn p.2.1,
    docsMap := processed.map fun p => (p.1, p.2.1, embedFn p.2.1),
    meta := processed.map (·.2.2) }

/-- Translation of the ingestion script in full mode (no `--file`
argument): classify, process only new and modified files, exit without
writing when there is nothing to process. -/
def ingestRun {V : Type} (tok : String → Nat) (embedFn : String → V)
    (prior : IndexState V) (disk : List (String × String)) : IndexState V :=
  let fileEntries := disk.map fun fc => FileEntry.mk fc.1 fc.2
  let status :=
    checkDocumentStatus (prior.meta.map fun m => MetaRec.mk m.source m.checksum)
      fileEntries
  let filesToProcess := status.new ++ status.modified
  if filesToProcess = [] then prior
  else
    let documents := filesToProcess.filterMap fun name =>
      (disk.find? fun fc => fc.1 = name).map fun fc => SDoc.mk fc.2 name
    saveVectorStore tok embedFn documents

/-- The tokenizer used for the concrete C1 run. -/
def c1Tok : String → Nat := String.length

/-- A prior index holding the single file `a.md` with content `Alpha`. -/
def c1Prior : IndexState String :=
  saveVectorStore c1Tok (fun t => t) [SDoc.mk "Alpha" "a.md"]

/-- The docs directory afterwards: `a.md` unchanged, `b.md` new. -/
def c1Disk : List (String × String) := [("a.md", "Alpha"), ("b.md", "Beta")]

/-- C1 failing input, evaluated: with `a.md` already ingested and unchanged
and `b.md` new, the ingestion run processes only `b.md` and
`saveVectorStore` overwrites the whole persisted index with the chunks of
`b.md` alone — every chunk of the unchanged `a.md` is gone, and the
resulting read-state differs from a full rebuild over both files. -/
theorem c1_incremental_wipes_unchanged :
    (∀ m ∈ (ingestRun c1Tok (fun t => t) c1Prior c1Disk).meta,
        ¬ m.source = "a.md") ∧
      (∃ m ∈ (saveVectorStore c1Tok (fun t => t)
          (c1Disk.map fun fc => SDoc.mk fc.2 fc.1)).meta,
        m.source = "a.md") ∧
      ¬ (ingestRun c1Tok (fun t => t) c1Prior c1Disk =
          saveVectorStore c1Tok (fun t => t)
            (c1Disk.map fun fc => SDoc.mk fc.2 fc.1)) := by
  decide

/-! ### Ask handler (src/pages/api/ask.ts lines 71-154)

After retrieval the handler formats the contexts, then: fewer than 2
contexts returns an insufficient-corpus answer with `insufficient: true`
(and no `noContext` key); a separate zero-context branch would return a
no-content answer with `noContext: true`, but it sits after the
`contexts.length < 2` return and is unreachable; otherwise the LLM answer
is returned with `insufficient: false`.  The LLM call (external
collaborator) is a function parameter.  The JSON `noContext` key is
modelled as an `Option Bool`, `none` when the key is absent. -/

/-- A formatted context entry (text and reported distance). -/
structure FmtCtx where
  text : String
  score : ℚ
deriving DecidableEq

/-- The caller-visible JSON response of the handler. -/
structure AskResponse where
  answer : String
  contexts : List FmtCtx
  totalDocuments : Nat
  searchResults : Nat
  system : String
  insufficient : Bool
  noContext : Option Bool
deriving DecidableEq

/-- The insufficient-corpus answer template (lines 97-102). -/
def insufficientAnswer (query : String) (metaLen n : Nat) : String :=
  "Insufficient corpus for query: \"" ++ query ++ "\"\n\n" ++
    "**Available documents:** " ++ toString metaLen ++ " total\n" ++
    "**Relevant chunks found:** " ++ toString n ++ "\n\n" ++
    "**Recommendation:** Upload more documents related to this topic or try a different query."

/-- The zero-context answer template (lines 116-126, unreachable). -/
def noContextAnswer (query : String) (metaLen : Nat) : String :=
  "No relevant content found for query: \"" ++ query ++ "\"\n\n" ++
    "**Available documents:** " ++ toString metaLen ++ " total\n" ++
    "**Search results:** 0\n\n" ++
    "**Recommendation:** Check your documents and try a different query or re-index your documents."

/-- Translation of the handler branch structure from the retrieved
contexts; `llm` is the external answer generation. -/
def askHandler (llm : String → List (String × ℚ) → String) (query : String)
    (metaLen : Nat) (contexts : List (String × ℚ)) : AskResponse :=
  let formatted := contexts.map fun c => FmtCtx.mk c.1 c.2
  if contexts.length < 2 then
    { answer := insufficientAnswer query metaLen contexts.length,
      contexts := formatted, totalDocuments := metaLen,
      searchResults := contexts.length, system := "enhanced",
      insufficient := true, noContext := none }
  else if contexts.length = 0 then
    { answer := noContextAnswer query metaLen, contexts := [],
      totalDocuments := metaLen, searchResults := 0, system := "enhanced",
      insufficient := true, noContext := some true }
  else
    { answer := llm query contexts, contexts := formatted,
      totalDocuments := metaLen, searchResults := contexts.length,
      system := "enhanced", insufficient := false, noContext := none }

/-- C9: the zero-context response and the degraded single-context response
are observably different to the caller: both flow through the
`contexts.length < 2` branch (so both carry `insufficient: true` and no
`noContext` key — the dedicated zero-context branch is dead code), but the
`searchResults` field, the `contexts` array and the answer text all differ
between the two cases. -/
theorem c9_zero_vs_degraded_distinguishable
    (llm : String → List (String × ℚ) → String) (query : String)
    (metaLen : Nat) (c : String × ℚ) :
    (askHandler llm query metaLen [c]).searchResults = 1 ∧
      (askHandler llm query metaLen []).searchResults = 0 ∧
      (askHandler llm query metaLen [c]).insufficient = true ∧
      (askHandler llm query metaLen []).insufficient = true ∧
      ¬ askHandler llm query metaLen [c] = askHandler llm query metaLen [] := by
  refine ⟨rfl, rfl, rfl, rfl, ?_⟩
  intro h
  have h1 : (askHandler llm query metaLen [c]).searchResults =
      (askHandler llm query metaLen []).searchResults := by rw [h]
  simp [askHandler] at h1
